import Mathlib

/-!
A verification development for the u-speak/core tangle and post layer.

The Go sources are shallowly embedded: bytes are natural numbers below 256,
Go strings become Lean strings (hashed through their UTF-8 bytes), machine
integers become naturals with explicit reduction modulo 2^64 where overflow
matters, and fallible operations return `Option` or `Except`.
-/

/-- Modelled from the spec: the `tangle/hash` package is not under `src/`;
the spec describes it as a 32-byte collision-resistant cryptographic digest
with a URL-safe padding-free printable encoding and a weight equal to the
count of leading zero bits. We model the digest concretely as SHA-256
(the repository's legacy chain code also uses 32-byte digests). A hash value
is its list of digest bytes. -/
abbrev Hash := List Nat

/-- 2^32, the word modulus of SHA-256. -/
def w32 : Nat := 4294967296

/-- 32-bit right rotation. -/
def rot32 (k x : Nat) : Nat := (x / 2 ^ k + x % 2 ^ k * 2 ^ (32 - k)) % w32

/-- Logical right shift. -/
def shr (k x : Nat) : Nat := x / 2 ^ k

/-- 32-bit bitwise complement (inputs are below 2^32). -/
def bnot32 (x : Nat) : Nat := 4294967295 - x

/-- SHA-256 choice function. -/
def sha2ch (x y z : Nat) : Nat := Nat.xor (Nat.land x y) (Nat.land (bnot32 x) z)

/-- SHA-256 majority function. -/
def sha2maj (x y z : Nat) : Nat :=
  Nat.xor (Nat.xor (Nat.land x y) (Nat.land x z)) (Nat.land y z)

/-- SHA-256 big sigma 0. -/
def sumA (x : Nat) : Nat := Nat.xor (Nat.xor (rot32 2 x) (rot32 13 x)) (rot32 22 x)

/-- SHA-256 big sigma 1. -/
def sumE (x : Nat) : Nat := Nat.xor (Nat.xor (rot32 6 x) (rot32 11 x)) (rot32 25 x)

/-- SHA-256 small sigma 0. -/
def sprA (x : Nat) : Nat := Nat.xor (Nat.xor (rot32 7 x) (rot32 18 x)) (shr 3 x)

/-- SHA-256 small sigma 1. -/
def sprE (x : Nat) : Nat := Nat.xor (Nat.xor (rot32 17 x) (rot32 19 x)) (shr 10 x)

/-- The 64 SHA-256 round constants, written in decimal. -/
def sha2K : List Nat :=
  [1116352408, 1899447441, 3049323471, 3921009573, 961987163,
   1508970993, 2453635748, 2870763221, 3624381080, 310598401,
   607225278, 1426881987, 1925078388, 2162078206, 2614888103,
   3248222580, 3835390401, 4022224774, 264347078, 604807628,
   770255983, 1249150122, 1555081692, 1996064986, 2554220882,
   2821834349, 2952996808, 3210313671, 3336571891, 3584528711,
   113926993, 338241895, 666307205, 773529912, 1294757372,
   1396182291, 1695183700, 1986661051, 2177026350, 2456956037,
   2730485921, 2820302411, 3259730800, 3345764771, 3516065817,
   3600352804, 4094571909, 275423344, 430227734, 506948616,
   659060556, 883997877, 958139571, 1322822218, 1537002063,
   1747873779, 1955562222, 2024104815, 2227730452, 2361852424,
   2428436474, 2756734187, 3204031479, 3329325298]

/-- The eight SHA-256 initial state words, written in decimal. -/
def sha2H0 : List Nat :=
  [1779033703, 3144134277, 1013904242, 2773480762, 1359893119,
   2600822924, 528734635, 1541459225]

/-- Big-endian 8-byte encoding of a natural number below 2^64. -/
def be64 (n : Nat) : List Nat :=
  [n / 2 ^ 56 % 256, n / 2 ^ 48 % 256, n / 2 ^ 40 % 256, n / 2 ^ 32 % 256,
   n / 2 ^ 24 % 256, n / 2 ^ 16 % 256, n / 2 ^ 8 % 256, n % 256]

/-- SHA-256 padding: append 0x80, zero bytes to 56 mod 64, and the bit length. -/
def sha2pad (msg : List Nat) : List Nat :=
  msg ++ 0x80 :: List.replicate ((119 - msg.length % 64) % 64) 0 ++ be64 (8 * msg.length)

/-- Group a byte list into big-endian 32-bit words. -/
def toWords : List Nat → List Nat
  | a :: b :: c :: d :: rest => (((a * 256 + b) * 256 + c) * 256 + d) :: toWords rest
  | _ => []

/-- Extend a 16-word message block, appending `k` further schedule words. -/
def extendWords : Nat → List Nat → List Nat
  | 0, ws => ws
  | k + 1, ws =>
      let t := ws.length
      let w := (sprE (ws.getD (t - 2) 0) + ws.getD (t - 7) 0 +
                sprA (ws.getD (t - 15) 0) + ws.getD (t - 16) 0) % w32
      extendWords k (ws ++ [w])

/-- One SHA-256 compression round on the 8-word working state. -/
def sha2round (st : List Nat) (kw : Nat × Nat) : List Nat :=
  match st with
  | [a, b, c, d, e, f, g, h] =>
      let t1 := (h + sumE e + sha2ch e f g + kw.1 + kw.2) % w32
      let t2 := (sumA a + sha2maj a b c) % w32
      [(t1 + t2) % w32, a, b, c, (d + t1) % w32, e, f, g]
  | _ => st

/-- Process one 64-byte block against the running hash state. -/
def sha2block (h0 : List Nat) (block : List Nat) : List Nat :=
  let ws := extendWords 48 (toWords block)
  let st := (sha2K.zip ws).foldl sha2round h0
  (h0.zip st).map (fun p => (p.1 + p.2) % w32)

/-- Split a byte list into 64-byte chunks (the input length is a multiple
of 64 after padding). -/
def chunks64 (l : List Nat) : List (List Nat) :=
  go l.length l
where
  go : Nat → List Nat → List (List Nat)
    | 0, _ => []
    | _, [] => []
    | n + 1, l => l.take 64 :: go n (l.drop 64)

/-- Big-endian 4-byte encoding of a 32-bit word. -/
def wordBytes (w : Nat) : List Nat :=
  [w / 2 ^ 24 % 256, w / 2 ^ 16 % 256, w / 2 ^ 8 % 256, w % 256]

/-- SHA-256 of a byte list, as 32 digest bytes. -/
def sha256 (msg : List Nat) : Hash :=
  (((chunks64 (sha2pad msg)).foldl sha2block sha2H0).map wordBytes).flatten

/-- Modelled from the spec: `hash.New` computes the digest of the input
(§4.A of the spec; the `tangle/hash` package is not under `src/`). -/
def hashNew (b : List Nat) : Hash := sha256 b

/-- UTF-8 encoding of a single character. -/
def charUTF8 (c : Char) : List Nat :=
  let n := c.toNat
  if n < 0x80 then [n]
  else if n < 0x800 then [0xC0 + n / 64, 0x80 + n % 64]
  else if n < 0x10000 then [0xE0 + n / 4096, 0x80 + n / 64 % 64, 0x80 + n % 64]
  else [0xF0 + n / 262144, 0x80 + n / 4096 % 64, 0x80 + n / 64 % 64, 0x80 + n % 64]

/-- The UTF-8 bytes of a string (Go strings are UTF-8 byte sequences). -/
def strBytes (s : String) : List Nat := (s.toList.map charUTF8).flatten

/-- The URL-safe base64 alphabet (RFC 4648 §5). -/
def b64Char (n : Nat) : Char :=
  "ABCDEFGHIJKLMNOPQRSTUVWXYZabcdefghijklmnopqrstuvwxyz0123456789-_".toList.getD n 'A'

/-- Padding-free URL-safe base64 encoding of a byte list. -/
def b64Encode : List Nat → List Char
  | [] => []
  | [a] => [b64Char (a / 4), b64Char (a % 4 * 16)]
  | [a, b] => [b64Char (a / 4), b64Char (a % 4 * 16 + b / 16), b64Char (b % 16 * 4)]
  | a :: b :: c :: rest =>
      b64Char (a / 4) :: b64Char (a % 4 * 16 + b / 16) ::
      b64Char (b % 16 * 4 + c / 64) :: b64Char (c % 64) :: b64Encode rest

/-- Modelled from the spec: the hash's printable encoding (`Hash.String` in Go),
specified in §4.A as a URL-safe, padding-free base encoding. -/
def Hash.string (h : Hash) : String := String.mk (b64Encode h)

/-- The count of leading zero bits of a nonzero byte. -/
def byteLZ (b : Nat) : Nat :=
  if b < 2 then 7 else if b < 4 then 6 else if b < 8 then 5 else if b < 16 then 4
  else if b < 32 then 3 else if b < 64 then 2 else if b < 128 then 1 else 0

/-- Modelled from the spec: the hash's weight (`Hash.Weight` in Go), the count
of leading zero bits of the digest (§4.A): each leading zero byte contributes
8 bits, and the first nonzero byte its own leading zero bits. -/
def Hash.weight : Hash → Nat
  | [] => 0
  | b :: bs => if b = 0 then 8 + Hash.weight bs else byteLZ b

/-- A site of the tangle (`site.Site` in `src/tangle/site/site.go`): a list of
validated parent sites, a proof-of-work nonce, a content hash and a type tag.
The Go field `Type` is rendered `Ty` because `Type` is reserved in Lean;
`Validates []*Site` becomes a list of sites (pointer graphs are modelled as
trees of values, which the structural hash never distinguishes). -/
inductive Site : Type where
  | mk (Validates : List Site) (Nonce : Nat) (Content : Hash) (Ty : String)

/-- The `Validates` field of a site. -/
def Site.Validates : Site → List Site
  | .mk v _ _ _ => v

/-- The `Nonce` field of a site (a Go `uint64`, modelled as a natural). -/
def Site.Nonce : Site → Nat
  | .mk _ n _ _ => n

/-- The `Content` field of a site. -/
def Site.Content : Site → Hash
  | .mk _ _ c _ => c

/-- The `Type` field of a site. -/
def Site.Ty : Site → String
  | .mk _ _ _ t => t

mutual

/-- `Site.Hash` from `src/tangle/site/site.go`: the digest of
`"C" + Content.String() + "N" + FormatUint(Nonce, 10) + "T" + Type` followed
by `"V" + parent.Hash().String()` for each parent in order. -/
def Site.hash : Site → Hash
  | .mk v n c t =>
      hashNew (strBytes ("C" ++ Hash.string c ++ "N" ++ Nat.repr n ++ "T" ++ t ++
        Site.hashParents v))

/-- The `for`-loop of `Site.Hash`: the `"V" + parent hash` segments in order. -/
def Site.hashParents : List Site → String
  | [] => ""
  | s :: ss => "V" ++ Hash.string (Site.hash s) ++ Site.hashParents ss

end

/-- A MessagePack object tree. `Site.Serialize` calls the external
`msgpack.Marshal` of github.com/vmihailenco/msgpack, which reflects over the
struct; we model its output at the level of the MessagePack object it encodes
(the byte framing of the external library is injective on objects and adds
nothing the claims depend on). -/
inductive Msg : Type where
  | int (n : Nat)
  | str (s : String)
  | bin (b : List Nat)
  | arr (xs : List Msg)
  | map (kvs : List (String × Msg))

mutual

/-- `Site.Serialize` from `src/tangle/site/site.go`: `msgpack.Marshal(s)`.
The reflective encoder writes the struct as a map from field names to encoded
field values; the `Validates []*Site` field dereferences each parent pointer
and encodes the parent struct recursively. -/
def Site.serialize : Site → Msg
  | .mk v n c t =>
      .map [("Validates", .arr (Site.serializeList v)), ("Nonce", .int n),
            ("Content", .bin c), ("Type", .str t)]

/-- Encoding of the `Validates` slice: each parent site in order. -/
def Site.serializeList : List Site → List Msg
  | [] => []
  | s :: ss => Site.serialize s :: Site.serializeList ss

end

mutual

/-- `Site.Deserialize` from `src/tangle/site/site.go`: `msgpack.Unmarshal`
into the struct, decoding each field from the map produced by `Marshal`. -/
def Site.deserialize : Msg → Option Site
  | .map [("Validates", .arr vs), ("Nonce", .int n), ("Content", .bin c), ("Type", .str t)] =>
      match Site.deserializeList vs with
      | some sites => some (.mk sites n c t)
      | none => none
  | _ => none

/-- Decoding of the `Validates` slice. -/
def Site.deserializeList : List Msg → Option (List Site)
  | [] => some []
  | m :: ms =>
      match Site.deserialize m, Site.deserializeList ms with
      | some s, some ss => some (s :: ss)
      | _, _ => none

end

/-- Replace the nonce of a site (the `s.Nonce++` assignment target). -/
def Site.setNonce : Site → Nat → Site
  | .mk v _ c t, n => .mk v n c t

/-- One `s.Nonce++` step of the mining loop; the Go nonce is a `uint64`, so
the increment wraps modulo 2^64. -/
def Site.incNonce (s : Site) : Site := s.setNonce ((s.Nonce + 1) % 2 ^ 64)

/-- `Site.Mine` from `src/tangle/site/site.go`:
`for s.Hash().Weight() < targetWeight { s.Nonce++ }`. The Go loop need not
terminate, so the model takes explicit fuel and returns `none` when the fuel
runs out before a satisfying nonce is reached; `some s` is the state of the
site when the Go loop returns. -/
def Site.mine : Nat → Site → Nat → Option Site
  | 0, _, _ => none
  | fuel + 1, s, targetWeight =>
      if Hash.weight (Site.hash s) < targetWeight then
        Site.mine fuel (Site.incNonce s) targetWeight
      else some s

/-- Errors of the tangle engine's append protocol (spec §7). -/
inductive TangleError : Type where
  | weightTooLow
  | tooFewValidations
  | unknownParent
  | alreadyPresent
deriving DecidableEq

/-- Modelled from the spec: the tangle engine's state (§3, §4.E); the `tangle`
package itself is not under `src/` (only its test is). The engine owns a store
of sites keyed by their hash, a tip set, and the configured minimum weight `W`. -/
structure Tangle : Type where
  minWeight : Nat
  sites : List Site
  tips : List Hash

/-- Modelled from the spec: the append protocol `add(site)` of §4.E; the
`tangle` package is not under `src/`. Steps in order: weight check
(`WeightTooLow` when `weight(site.hash) < W`), reference count
(`TooFewValidations` below 2), reference resolution (`UnknownParent`),
duplicate check (`AlreadyPresent`), then persist and tip update: parents are
demoted from the tip set and the new site becomes a tip. -/
def Tangle.add (t : Tangle) (s : Site) : Except TangleError Tangle :=
  if Hash.weight (Site.hash s) < t.minWeight then .error .weightTooLow
  else if s.Validates.length < 2 then .error .tooFewValidations
  else if !(s.Validates.all fun p => t.sites.any fun q => Site.hash q == Site.hash p) then
    .error .unknownParent
  else if t.sites.any fun q => Site.hash q == Site.hash s then .error .alreadyPresent
  else .ok { t with
    sites := s :: t.sites,
    tips := Site.hash s ::
      t.tips.filter fun tip => !(s.Validates.any fun p => Site.hash p == tip) }

/-- An OpenPGP signature packet (`packet.Signature` of golang.org/x/crypto),
abstracted to what the post layer reads: the declared hash algorithm and the
serialized packet body. -/
structure PGPSignature : Type where
  hashAlg : Nat
  body : List Nat
deriving DecidableEq

/-- An OpenPGP entity (`openpgp.Entity`), abstracted to its primary key id
string (`PrimaryKey.KeyIdString()`). -/
structure PGPEntity : Type where
  primaryKeyId : String
deriving DecidableEq

/-- An OpenPGP packet as returned by `packet.Reader.Next()`: either a
signature packet or some other packet kind. -/
inductive PGPPacket : Type where
  | signature (s : PGPSignature)
  | other
deriving DecidableEq

/-- The new-format OpenPGP packet header written by the external library's
`serializeHeader` (golang.org/x/crypto/openpgp/packet) for a signature packet:
tag byte `0xC2`, then a one-byte length below 192, a two-byte length below
8384, or a five-byte length otherwise. -/
def serializeHeader (length : Nat) : List Nat :=
  0xC2 :: (if length < 192 then [length]
    else if length < 8384 then [(length - 192) / 256 + 192, (length - 192) % 256]
    else [255, length / 2 ^ 24 % 256, length / 2 ^ 16 % 256, length / 2 ^ 8 % 256, length % 256])

/-- `packet.Signature.Serialize` of the external library: the packet header
followed by the packet body. -/
def PGPSignature.serializeBytes (s : PGPSignature) : List Nat :=
  serializeHeader s.body.length ++ s.body

/-- A post (`post.Post` in the post package): content, OpenPGP key and
signature, their ASCII-armored transport forms, and a signed 64-bit
timestamp. -/
structure Post : Type where
  Content : String
  Pubkey : PGPEntity
  Signature : PGPSignature
  PubkeyStr : String
  SigStr : String
  Timestamp : Int
deriving DecidableEq

/-- `Post.Hash` from the post package: serialize the signature into a buffer,
drop the first three bytes (`buff.Bytes()[3:]`), hash what remains, then hash
`"C" + Content + "D" + FormatInt(Timestamp, 10) + "P" + KeyIdString + "S" +
sighash.String()`. The Go function returns the pair `(hash, error)` and its
single return statement always passes `nil` for the error. -/
def Post.hash (p : Post) : Hash × Option String :=
  let sigdata := (PGPSignature.serializeBytes p.Signature).drop 3
  let sighash := hashNew sigdata
  (hashNew (strBytes ("C" ++ p.Content ++ "D" ++ toString p.Timestamp ++ "P" ++
    p.Pubkey.primaryKeyId ++ "S" ++ Hash.string sighash)), none)

/-- The cutset of `strings.Trim` in `Post.Verify`:
`"\t\n\v\f\r \u0085\u00A0"`. -/
def trimCutset : List Char := "\t\n\x0B\x0C\r \u0085\u00A0".toList

/-- Membership in the trim cutset. -/
def isTrimChar (c : Char) : Bool := trimCutset.contains c

/-- The Go standard library's `strings.Trim(s, cutset)`: the string with all
leading and all trailing runes of the cutset removed. -/
def goTrim (s : String) : String :=
  String.mk (((s.toList.dropWhile isTrimChar).reverse.dropWhile isTrimChar).reverse)

/-- `Post.Verify` from the post package: feed the whitespace-trimmed content
to a fresh hash of the algorithm the signature declares, then check the
signature against the primary public key. The two cryptographic primitives of
the external OpenPGP library are parameters: `algHash` is the declared
algorithm's digest, `verifySig` the primary key's `VerifySignature`.
(`io.Copy` from a string reader into a hash cannot fail, so the copy error
branch is dead.) -/
def Post.verify (algHash : Nat → List Nat → List Nat)
    (verifySig : PGPEntity → List Nat → PGPSignature → Bool) (p : Post) :
    Except String Unit :=
  let digest := algHash p.Signature.hashAlg (strBytes (goTrim p.Content))
  if verifySig p.Pubkey digest p.Signature then .ok ()
  else .error "openpgp: invalid signature"

/-- `Post.ReInit` from the post package: decode the armored public-key block
into an entity and the armored signature block into a packet; fail if either
decode fails or the packet is not a signature packet, otherwise restore the
`Pubkey` and `Signature` fields. The armor and packet parsers of the external
OpenPGP library are parameters. -/
def Post.reInit (decodeEntity : String → Except String PGPEntity)
    (decodePacket : String → Except String PGPPacket) (p : Post) :
    Except String Post :=
  match decodeEntity p.PubkeyStr with
  | .error e => .error e
  | .ok pub =>
    match decodePacket p.SigStr with
    | .error e => .error e
    | .ok (.signature sig) => .ok { p with Pubkey := pub, Signature := sig }
    | .ok .other => .error "Wrong Block type for signature"

/-- `Post.Deserialize` from the post package: unmarshal the transport bytes
into the record (the generated `UnmarshalMsg` codec is a parameter, as the
generated code is not under `src/`), then `ReInit`. -/
def Post.deserialize (unmarshalMsg : List Nat → Except String Post)
    (decodeEntity : String → Except String PGPEntity)
    (decodePacket : String → Except String PGPPacket) (bts : List Nat) :
    Except String Post :=
  match unmarshalMsg bts with
  | .error e => .error e
  | .ok p => Post.reInit decodeEntity decodePacket p

/-- The site identity hash as the spec's claim words it: the digest of
`"C" + enc(Content) + "N" + decimal(Nonce) + "T" + Type` followed by
`"V" + enc(hash(p))` for each parent `p` of `Validates` in order, each parent
hashed by recursively calling the hash accessor (`enc` is the hash's printable
encoding of §4.A). -/
def siteHashSpec (s : Site) : Hash :=
  hashNew (strBytes ("C" ++ Hash.string s.Content ++ "N" ++ Nat.repr s.Nonce ++
    "T" ++ s.Ty ++ (s.Validates.map fun p => "V" ++ Hash.string (Site.hash p)).foldr (· ++ ·) ""))

/-- The site serialization as the spec's claim words it: the four logical
fields, with the parent list as an ordered sequence of the parents' hashes
rather than nested site records. -/
def siteSerializeSpecHashes (s : Site) : Msg :=
  .map [("Validates", .arr (s.Validates.map fun p => Msg.bin (Site.hash p))),
        ("Nonce", .int s.Nonce), ("Content", .bin s.Content), ("Type", .str s.Ty)]

/-- The site serialization as the amended claim words it: the four logical
fields, with the parent list as an ordered sequence of nested, recursively
serialized parent site records. -/
def siteSerializeSpecNested (s : Site) : Msg :=
  .map [("Validates", .arr (s.Validates.map Site.serialize)),
        ("Nonce", .int s.Nonce), ("Content", .bin s.Content), ("Type", .str s.Ty)]

/-- Observation distinguishing the two serialization shapes: whether the first
entry of the encoded `Validates` array is a raw byte string. -/
def msgValidatesHeadIsBin : Msg → Bool
  | .map (("Validates", .arr (Msg.bin _ :: _)) :: _) => true
  | _ => false

/-- The post canonical hash as the spec's claim words it:
`hash("C" + Content + "D" + decimal(Timestamp) + "P" + primary-key-id + "S" +
hash(signature-body))`, where the signature body is the serialized signature
packet body. -/
def postHashSpec (p : Post) : Hash :=
  hashNew (strBytes ("C" ++ p.Content ++ "D" ++ toString p.Timestamp ++ "P" ++
    p.Pubkey.primaryKeyId ++ "S" ++ Hash.string (hashNew p.Signature.body)))

/-- The whitespace set of the claim on `Post.Verify`:
space, tab, CR, LF, VT, FF, NEL and NBSP. -/
def trimSpecSet : List Char :=
  [' ', '\t', '\r', '\n', Char.ofNat 11, Char.ofNat 12, Char.ofNat 0x85, Char.ofNat 0xA0]

/-- Content trimming as the claim words it: leading and trailing characters
of the whitespace set are stripped. -/
def trimSpec (s : String) : String :=
  String.mk (((s.toList.dropWhile fun c => trimSpecSet.contains c).reverse.dropWhile
    fun c => trimSpecSet.contains c).reverse)

/-- The `for`-loop of `Site.Hash` concatenates exactly the per-parent
`"V" + hash` segments in order. -/
theorem hashParents_eq_fold (v : List Site) :
    Site.hashParents v = (v.map fun p => "V" ++ Hash.string (Site.hash p)).foldr (· ++ ·) "" := by
  induction v with
  | nil => rfl
  | cons s ss ih => simp [Site.hashParents, ih]

/-- The `Validates` slice is encoded element by element. -/
theorem serializeList_eq_map (v : List Site) :
    Site.serializeList v = v.map Site.serialize := by
  induction v with
  | nil => rfl
  | cons s ss ih => simp [Site.serializeList, ih]

mutual

/-- Deserialization inverts serialization, site case (round-trip helper). -/
theorem site_rt_aux : ∀ s : Site, Site.deserialize (Site.serialize s) = some s
  | .mk v n c t => by
      have h := site_rt_list_aux v
      simp [Site.serialize, Site.deserialize, h]

/-- Deserialization inverts serialization, parent-list case. -/
theorem site_rt_list_aux : ∀ l : List Site, Site.deserializeList (Site.serializeList l) = some l
  | [] => rfl
  | s :: ss => by
      have h1 := site_rt_aux s
      have h2 := site_rt_list_aux ss
      simp [Site.serializeList, Site.deserializeList, h1, h2]

end

/-- A nonce bump changes no field but the nonce. -/
theorem incNonce_fields (s : Site) :
    (Site.incNonce s).Validates = s.Validates ∧ (Site.incNonce s).Content = s.Content ∧
    (Site.incNonce s).Ty = s.Ty := by
  cases s with
  | mk v n c t => exact ⟨rfl, rfl, rfl⟩

/-- Iterated nonce bumps change no field but the nonce. -/
theorem iterate_incNonce_fields (k : Nat) (s : Site) :
    (Site.incNonce^[k] s).Validates = s.Validates ∧
    (Site.incNonce^[k] s).Content = s.Content ∧ (Site.incNonce^[k] s).Ty = s.Ty := by
  induction k generalizing s with
  | zero => simp
  | succ k ih =>
      rw [Function.iterate_succ_apply]
      obtain ⟨h1, h2, h3⟩ := ih (Site.incNonce s)
      obtain ⟨g1, g2, g3⟩ := incNonce_fields s
      exact ⟨h1.trans g1, h2.trans g2, h3.trans g3⟩

/-- When the mining loop returns, the final site satisfies the weight target
and is the start site after some number of nonce increments within fuel. -/
theorem mine_spec (fuel : Nat) (s : Site) (t : Nat) (s' : Site)
    (h : Site.mine fuel s t = some s') :
    t ≤ Hash.weight (Site.hash s') ∧ ∃ k, k ≤ fuel ∧ s' = Site.incNonce^[k] s := by
  induction fuel generalizing s with
  | zero => simp [Site.mine] at h
  | succ fuel ih =>
      rw [Site.mine] at h
      by_cases hw : Hash.weight (Site.hash s) < t
      · rw [if_pos hw] at h
        obtain ⟨h1, k, hk, hs⟩ := ih (Site.incNonce s) h
        refine ⟨h1, k + 1, by omega, ?_⟩
        rw [Function.iterate_succ_apply]
        exact hs
      · rw [if_neg hw] at h
        cases h
        exact ⟨Nat.le_of_not_lt hw, 0, Nat.zero_le _, rfl⟩

/-- The characters of the Go trim cutset, spelled out. -/
theorem trimCutset_chars :
    trimCutset = ['\t', '\n', Char.ofNat 11, Char.ofNat 12, '\r', ' ',
      Char.ofNat 0x85, Char.ofNat 0xA0] := by decide

/-- The Go cutset and the claim's whitespace set admit the same characters. -/
theorem isTrimChar_eq (c : Char) : isTrimChar c = trimSpecSet.contains c := by
  rw [Bool.eq_iff_iff]
  unfold isTrimChar
  rw [trimCutset_chars]
  simp only [trimSpecSet, List.elem_iff, List.mem_cons, List.not_mem_nil, or_false]
  tauto

/-- Go's `strings.Trim` over the cutset is trimming by the claim's set. -/
theorem goTrim_eq_trimSpec (s : String) : goTrim s = trimSpec s := by
  have h : isTrimChar = fun c => trimSpecSet.contains c := funext isTrimChar_eq
  unfold goTrim trimSpec
  rw [h]

/-- C1: for every site `s`, the identity hash of `s` equals the digest of
`"C" + enc(s.Content) + "N" + decimal(s.Nonce) + "T" + s.Type` followed by
`"V" + enc(hash(p))` for each parent `p` in `s.Validates` in order, where
every parent is hashed by recursively calling its hash accessor rather than
by embedding its stored representation (`enc` is the hash's printable
encoding). -/
theorem site_hash_matches_spec (s : Site) : Site.hash s = siteHashSpec s := by
  cases s with
  | mk v n c t =>
      simp [Site.hash, siteHashSpec, Site.Validates, Site.Nonce, Site.Content,
        Site.Ty, hashParents_eq_fold]

/-- C2 (amended): for every site `s`, `serialize(s)` encodes the four logical
fields with the parent list encoded as an ordered sequence of nested,
recursively serialized parent site records. -/
theorem site_serialize_parents_nested (s : Site) :
    Site.serialize s = siteSerializeSpecNested s := by
  cases s with
  | mk v n c t =>
      simp [Site.serialize, siteSerializeSpecNested, serializeList_eq_map,
        Site.Validates, Site.Nonce, Site.Content, Site.Ty]

/-- C3: for every site, deserializing its serialization yields the site back
(`deserialize(serialize(s)) = s`; the claim's restriction to sites whose
`Validates` is expressed as parent hashes is vacuous in the code's data model,
where `Validates` always holds site records, and the round-trip holds for all
sites). -/
theorem site_serialize_roundtrip (s : Site) :
    Site.deserialize (Site.serialize s) = some s :=
  site_rt_aux s

/-- C4: for every post `p` (and any OpenPGP digest and signature-check
primitives), `verify(p)` returns ok exactly when the signature, checked
against the post's primary public key with the hash algorithm declared in the
signature, validates over the content with leading and trailing whitespace
from the set (space, tab, CR, LF, VT, FF, NEL, NBSP) stripped. -/
theorem post_verify_trimmed_iff (algHash : Nat → List Nat → List Nat)
    (verifySig : PGPEntity → List Nat → PGPSignature → Bool) (p : Post) :
    Post.verify algHash verifySig p = .ok () ↔
    verifySig p.Pubkey (algHash p.Signature.hashAlg (strBytes (trimSpec p.Content)))
      p.Signature = true := by
  unfold Post.verify
  rw [goTrim_eq_trimSpec]
  cases hb : verifySig p.Pubkey
      (algHash p.Signature.hashAlg (strBytes (trimSpec p.Content))) p.Signature with
  | false => simp [hb]
  | true => simp [hb]

/-- C5 (amended): for every post whose serialized signature packet body has a
length in `[192, 8384)` — so that the packet header the library writes is
exactly three bytes — the canonical post hash equals
`hash("C" + Content + "D" + decimal(Timestamp) + "P" + primary-key-id + "S" +
hash(signature-body))`. -/
theorem post_hash_sigbody (p : Post) (h1 : 192 ≤ p.Signature.body.length)
    (h2 : p.Signature.body.length < 8384) : (Post.hash p).1 = postHashSpec p := by
  unfold Post.hash postHashSpec PGPSignature.serializeBytes serializeHeader
  rw [if_neg (by omega), if_pos h2]
  simp [List.drop]

/-- C6: whenever `mine(s, target)` returns (the Go loop reaches its exit
condition within the given fuel), the returned site satisfies
`weight(hash(site)) ≥ target`, and it was reached from `s` purely by
incrementing the nonce. -/
theorem mine_reaches_target (fuel : Nat) (s : Site) (t : Nat) (s' : Site)
    (h : Site.mine fuel s t = some s') :
    t ≤ Hash.weight (Site.hash s') ∧ ∃ k, k ≤ fuel ∧ s' = Site.incNonce^[k] s :=
  mine_spec fuel s t s' h

/-- C7: a candidate site whose hash weight is below the engine's configured
minimum weight is rejected with `WeightTooLow`, and no updated tangle state is
produced (the site is not stored). -/
theorem tangle_add_weight_too_low (t : Tangle) (s : Site)
    (h : Hash.weight (Site.hash s) < t.minWeight) :
    Tangle.add t s = .error .weightTooLow ∧ ∀ t', Tangle.add t s ≠ Except.ok t' := by
  have hadd : Tangle.add t s = .error .weightTooLow := by
    unfold Tangle.add
    rw [if_pos h]
  exact ⟨hadd, fun t' hc => by rw [hadd] at hc; exact Except.noConfusion hc⟩

/-- C8: `Post.Deserialize` fails whenever the armored signature block does not
decode into a signature packet (a decode error or a non-signature packet), and
otherwise restores the in-memory `Pubkey` and `Signature` fields from the
armored strings. The transport codec and the armor/packet parsers of the
external libraries are parameters. -/
theorem post_deserialize_restores (unm : List Nat → Except String Post)
    (adE : String → Except String PGPEntity) (adP : String → Except String PGPPacket)
    (bts : List Nat) (p : Post) (hu : unm bts = .ok p) :
    (((∃ e, adP p.SigStr = .error e) ∨ adP p.SigStr = .ok .other) →
      ∃ e', Post.deserialize unm adE adP bts = .error e') ∧
    (∀ pub sig, adE p.PubkeyStr = .ok pub → adP p.SigStr = .ok (.signature sig) →
      Post.deserialize unm adE adP bts = .ok { p with Pubkey := pub, Signature := sig }) := by
  unfold Post.deserialize Post.reInit
  rw [hu]
  constructor
  · intro hbad
    cases hE : adE p.PubkeyStr with
    | error e => exact ⟨e, by simp [hE]⟩
    | ok pub =>
        rcases hbad with ⟨e, he⟩ | ho
        · exact ⟨e, by simp [hE, he]⟩
        · exact ⟨"Wrong Block type for signature", by simp [hE, ho]⟩
  · intro pub sig hE hP
    simp [hE, hP]

/-- C9: mining modifies at most the nonce: when `mine(s, target)` returns, the
`Validates`, `Content` and `Type` fields of the result are those of `s`. -/
theorem mine_frame_nonce_only (fuel : Nat) (s : Site) (t : Nat) (s' : Site)
    (h : Site.mine fuel s t = some s') :
    s'.Validates = s.Validates ∧ s'.Content = s.Content ∧ s'.Ty = s.Ty := by
  obtain ⟨-, k, -, hs⟩ := mine_spec fuel s t s' h
  rw [hs]
  exact iterate_incNonce_fields k s

/-- C10: computing the canonical post hash never fails: the error component
`Post.Hash` returns is always `nil`. -/
theorem post_hash_nil_error (p : Post) : (Post.hash p).2 = none := rfl

/-- The content hash `hash.Hash{1, 3, 3, 7}` used by the engine's tests: a
32-byte array with the first four bytes set. -/
def cont1337 : Hash := [1, 3, 3, 7] ++ List.replicate 28 0

/-- A concrete unmined site: its hash has weight 0. -/
def lowSite : Site := Site.mk [] 0 cont1337 "post"

/-- A concrete site one nonce short of weight 1. -/
def mineStart : Site := Site.mk [] 2 cont1337 "post"

/-- The state of `mineStart` after one mining step; its hash has weight 1. -/
def mineResult : Site := Site.mk [] 3 cont1337 "post"

/-- A concrete engine state with minimum weight 1 (the tests' default). -/
def tangleW : Tangle := ⟨1, [], []⟩

/-- A concrete site with one parent, for the serialization shape check. -/
def siteC2 : Site := Site.mk [lowSite] 263 cont1337 "post"

/-- Witness for C6 at a concrete mining run of one nonce increment. -/
theorem mine_reaches_target_witness :
    1 ≤ Hash.weight (Site.hash mineResult) ∧
    ∃ k, k ≤ 2 ∧ mineResult = Site.incNonce^[k] mineStart :=
  mine_reaches_target 2 mineStart 1 mineResult (by rfl)

/-- Witness for C9 at the same concrete mining run. -/
theorem mine_frame_nonce_only_witness :
    mineResult.Validates = mineStart.Validates ∧
    mineResult.Content = mineStart.Content ∧ mineResult.Ty = mineStart.Ty :=
  mine_frame_nonce_only 2 mineStart 1 mineResult (by rfl)

/-- Witness for C7: the unmined test site is rejected by the engine. -/
theorem tangle_add_weight_too_low_witness :
    Tangle.add tangleW lowSite = .error .weightTooLow ∧
    ∀ t', Tangle.add tangleW lowSite ≠ Except.ok t' :=
  tangle_add_weight_too_low tangleW lowSite (by decide)

/-- C2 counterexample: at a concrete site with one parent, the serialization
does not encode the parent list as a sequence of the parents' hashes — the
first entry of the encoded `Validates` array is a nested record, not a raw
hash byte string. -/
theorem site_serialize_parents_not_hashes_cex :
    Site.serialize siteC2 ≠ siteSerializeSpecHashes siteC2 := by
  intro h
  have h1 : msgValidatesHeadIsBin (Site.serialize siteC2) = false := rfl
  have h2 : msgValidatesHeadIsBin (siteSerializeSpecHashes siteC2) = true := rfl
  rw [h, h2] at h1
  exact Bool.noConfusion h1

/-- A concrete post whose signature packet body is 192 bytes long, so the
packet header is three bytes. -/
def postW : Post :=
  { Content := "hello", Pubkey := ⟨"DEADBEEFCAFE"⟩,
    Signature := ⟨8, List.replicate 192 7⟩, PubkeyStr := "", SigStr := "",
    Timestamp := 1234 }

/-- The body length of `postW`'s signature is 192. -/
theorem postW_body_length : postW.Signature.body.length = 192 := by
  rw [show postW.Signature.body = List.replicate 192 7 from rfl, List.length_replicate]

/-- Witness for C5 (amended) at `postW`. -/
theorem post_hash_sigbody_witness :
    192 ≤ postW.Signature.body.length ∧ postW.Signature.body.length < 8384 ∧
    (Post.hash postW).1 = postHashSpec postW :=
  ⟨by rw [postW_body_length], by rw [postW_body_length]; omega,
    post_hash_sigbody postW (by rw [postW_body_length]) (by rw [postW_body_length]; omega)⟩

/-- A concrete post whose signature packet body is a single byte, so the
packet header is only two bytes and `buff.Bytes()[3:]` cuts into the body. -/
def postX : Post :=
  { Content := "x", Pubkey := ⟨"K"⟩, Signature := ⟨2, [1]⟩, PubkeyStr := "",
    SigStr := "", Timestamp := 0 }

set_option maxRecDepth 4000 in
/-- C5 counterexample: at `postX` the canonical post hash differs from
`hash("C" + Content + "D" + decimal(Timestamp) + "P" + primary-key-id + "S" +
hash(signature-body))` — the code hashes the serialized signature minus three
bytes, which here is the empty string rather than the one-byte packet body. -/
theorem post_hash_sigbody_cex : (Post.hash postX).1 ≠ postHashSpec postX := by
  decide

/-- A concrete transport codec always yielding `postW`. -/
def unmW : List Nat → Except String Post := fun _ => .ok postW

/-- A concrete armored-entity parser. -/
def adEW : String → Except String PGPEntity := fun _ => .ok ⟨"AABBCCDD"⟩

/-- A concrete armored-packet parser yielding a signature packet. -/
def adPW : String → Except String PGPPacket := fun _ => .ok (.signature ⟨3, [9]⟩)

/-- Witness for C8 at concrete parsers, transport bytes and post. -/
theorem post_deserialize_restores_witness :
    (((∃ e, adPW postW.SigStr = .error e) ∨ adPW postW.SigStr = .ok .other) →
      ∃ e', Post.deserialize unmW adEW adPW [] = .error e') ∧
    (∀ pub sig, adEW postW.PubkeyStr = .ok pub →
      adPW postW.SigStr = .ok (.signature sig) →
      Post.deserialize unmW adEW adPW [] = .ok { postW with Pubkey := pub, Signature := sig }) :=
  post_deserialize_restores unmW adEW adPW [] postW rfl
